import Mathlib

/-
  Shallow embedding of drekdice/dice.py: the Roll (dice pool) class and the
  SuccessTest class, together with the scripted random source used by the
  test suite (random.randrange patched to pop the next scripted value).

  Randomness is modelled as a finite list of raw draws (the script).  Each
  call to random.randrange(lo, hi) consumes one raw value v and produces a
  face through an interpretation function:
    - scriptedInterp ignores the bounds and returns v itself, exactly like
      the patched randrange in dice_tests.py (lambda x,y: it.next());
    - uniformInterp returns lo + v % (hi - lo), which ranges over exactly
      the support of the real random.randrange(lo, hi).
  Running out of script models StopIteration; an invalid pool size models
  the ValueError raised by Roll._roll.
-/

namespace Drekdice

/-- How a raw scripted value is turned into the result of
random.randrange(lo, hi). -/
abbrev Interp := Nat → Nat → Nat → Nat

/-- The patched randrange of the test suite: bounds are ignored and the raw
scripted value is returned as-is. -/
def scriptedInterp : Interp := fun _ _ v => v

/-- The real random.randrange(lo, hi): the result is lo + v % (hi - lo),
which ranges over the inclusive interval lo .. hi-1, the exact support of
random.randrange. -/
def uniformInterp : Interp := fun lo hi v => lo + v % (hi - lo)

/-- Errors a roll can raise: ValueError for an invalid pool size, and
StopIteration when the scripted source is exhausted. -/
inductive RollErr where
  | invalidPoolSize
  | scriptExhausted
deriving DecidableEq, Repr

/-- Propagated failures are compared up to structural equality. -/
instance {ε α : Type} [DecidableEq ε] [DecidableEq α] : DecidableEq (Except ε α)
  | .error e, .error f =>
    if h : e = f then .isTrue (by rw [h]) else .isFalse (by simp [h])
  | .error _, .ok _ => .isFalse (by simp)
  | .ok _, .error _ => .isFalse (by simp)
  | .ok a, .ok b =>
    if h : a = b then .isTrue (by rw [h]) else .isFalse (by simp [h])

/-- A Python argument: either an int, or a value of some other type
(such as the string "foo" or a list used in the tests). -/
inductive PyVal where
  | int (n : Int)
  | nonInt
deriving DecidableEq, Repr

/-- Whether Roll._roll rejects this pool-size argument:
type(dice_pool) != int or dice_pool < 1. -/
def badSize : PyVal → Bool
  | .int n => decide (n < 1)
  | .nonInt => true

/-- One call to random.randrange(lo, hi): consume the head of the script. -/
def draw (interp : Interp) (lo hi : Nat) : List Nat → Option (Nat × List Nat)
  | [] => none
  | v :: rest => some (interp lo hi v, rest)

/-- The explosion loop of Roll._roll, entered when a base die shows 6 with
edge: while roll == 6: roll = random.randrange(1, 6); dice.append(roll).
Returns the list of appended chain faces and the remaining script. -/
def sixChain (interp : Interp) : List Nat → Option (List Nat × List Nat)
  | [] => none
  | v :: rest =>
    let roll := interp 1 6 v
    if roll = 6 then
      match sixChain interp rest with
      | none => none
      | some (chain, rest2) => some (roll :: chain, rest2)
    else
      some ([roll], rest)

/-- The main loop of Roll._roll: for each of n base dice, draw a face from
random.randrange(1, 7), append it, and when it is a 6 and edge is set run
the explosion loop. -/
def rollDice (interp : Interp) (edge : Bool) : Nat → List Nat → Option (List Nat × List Nat)
  | 0, script => some ([], script)
  | n + 1, script =>
    match draw interp 1 7 script with
    | none => none
    | some (roll, rest) =>
      if roll = 6 ∧ edge = true then
        match sixChain interp rest with
        | none => none
        | some (chain, rest2) =>
          match rollDice interp edge n rest2 with
          | none => none
          | some (more, rest3) => some (roll :: (chain ++ more), rest3)
      else
        match rollDice interp edge n rest with
        | none => none
        | some (more, rest2) => some (roll :: more, rest2)

/-- Roll._roll: validate the pool size, then roll the dice. -/
def rollMethod (interp : Interp) (dice_pool : PyVal) (edge : Bool)
    (script : List Nat) : Except RollErr (List Nat × List Nat) :=
  if badSize dice_pool then .error .invalidPoolSize
  else
    match dice_pool with
    | .nonInt => .error .invalidPoolSize
    | .int n =>
      match rollDice interp edge n.toNat script with
      | none => .error .scriptExhausted
      | some res => .ok res

/-- Number of hits among the faces: len([d for d in dice if d > 4]). -/
def countHits (dice : List Nat) : Nat :=
  (dice.filter (fun d => decide (4 < d))).length

/-- Number of glitches among the faces: len([d for d in dice if d == 1]). -/
def countGlitches (dice : List Nat) : Nat :=
  (dice.filter (fun d => decide (d = 1))).length

/-- The comparison glitches >= float(dice_pool) / 2 of the glitch property,
carried out over the exact rationals (float halves of small ints are
exact, so this is the comparison the source performs). -/
def halfOrMore (g dp : Nat) : Bool :=
  decide ((g : ℚ) ≥ (dp : ℚ) / 2)

/-- The state of a Roll object: the attributes set by Roll.__init__.
original_dice_pool holds the constructor argument; dice the face list; the
three caches are the memoized _dice_pool, _hits and _glitches slots
(None is modelled as Option.none). -/
structure Roll where
  original_dice_pool : PyVal
  dice : List Nat
  dicePoolCache : Option Nat
  hitsCache : Option Nat
  glitchesCache : Option Nat
deriving DecidableEq, Repr

namespace Roll

/-- Roll.__init__: store the argument, roll the dice, cache the pool size
eagerly and leave the hit and glitch caches empty. -/
def init (interp : Interp) (dice_pool : PyVal) (edge : Bool)
    (script : List Nat) : Except RollErr (Roll × List Nat) :=
  match rollMethod interp dice_pool edge script with
  | .error e => .error e
  | .ok (d, rest) =>
    .ok ({ original_dice_pool := dice_pool
           dice := d
           dicePoolCache := some d.length
           hitsCache := none
           glitchesCache := none }, rest)

/-- The dice_pool property: return the cached size, computing it from the
face list when the cache is empty. -/
def dice_pool (r : Roll) : Nat × Roll :=
  match r.dicePoolCache with
  | some v => (v, r)
  | none => (r.dice.length, { r with dicePoolCache := some r.dice.length })

/-- The hits property: memoized count of faces greater than 4. -/
def hits (r : Roll) : Nat × Roll :=
  match r.hitsCache with
  | some v => (v, r)
  | none => (countHits r.dice, { r with hitsCache := some (countHits r.dice) })

/-- The glitches property: memoized count of faces equal to 1. -/
def glitches (r : Roll) : Nat × Roll :=
  match r.glitchesCache with
  | some v => (v, r)
  | none =>
    (countGlitches r.dice, { r with glitchesCache := some (countGlitches r.dice) })

/-- The glitch property: self.glitches >= float(self.dice_pool) / 2,
an exact fractional comparison (float halves of small ints are exact). -/
def glitch (r : Roll) : Bool × Roll :=
  let p1 := r.glitches
  let p2 := p1.2.dice_pool
  (halfOrMore p1.1 p2.1, p2.2)

/-- The fumble property: self.glitch and not self.hits.  Python's `and`
short-circuits, so hits is only read when glitch is truthy. -/
def fumble (r : Roll) : Bool × Roll :=
  let p1 := r.glitch
  if p1.1 then
    let p2 := p1.2.hits
    (decide (p2.1 = 0), p2.2)
  else (false, p1.2)

/-- Roll.add: self._dice += self._roll(dice_pool, edge=True), then reset
the three caches.  When _roll raises, the exception propagates and the
state is left untouched. -/
def add (interp : Interp) (r : Roll) (dice_pool : PyVal)
    (script : List Nat) : Except RollErr Unit × Roll × List Nat :=
  match rollMethod interp dice_pool true script with
  | .error e => (.error e, r, script)
  | .ok (new, rest) =>
    (.ok (), { r with dice := r.dice ++ new
                      dicePoolCache := none
                      hitsCache := none
                      glitchesCache := none }, rest)

/-- Roll.reroll: keep the hit faces, reroll dice_pool - hits dice without
edge, and replace the face list when there was anything to reroll.  The
property reads fill the size and hit caches even on the no-op path; the
size cache is not reset afterwards. -/
def reroll (interp : Interp) (r : Roll) (script : List Nat) :
    Except RollErr Unit × Roll × List Nat :=
  let hitFaces := r.dice.filter (fun d => decide (4 < d))
  let p1 := r.dice_pool
  let p2 := p1.2.hits
  let reroll_pool : Int := (p1.1 : Int) - (p2.1 : Int)
  if 0 < reroll_pool then
    match rollMethod interp (.int reroll_pool) false script with
    | .error e => (.error e, p2.2, script)
    | .ok (fresh, rest) =>
      (.ok (), { p2.2 with dice := hitFaces ++ fresh
                           hitsCache := none
                           glitchesCache := none }, rest)
  else (.ok (), p2.2, script)

end Roll

/-- A memo cache is consistent when, if filled, it holds the given value. -/
def cacheOK (c : Option Nat) (v : Nat) : Bool :=
  c.getD v == v

/-- Cache consistency of a Roll: every filled cache equals the value
recomputed from the current faces. -/
def Roll.WF (r : Roll) : Prop :=
  cacheOK r.dicePoolCache r.dice.length = true ∧
  cacheOK r.hitsCache (countHits r.dice) = true ∧
  cacheOK r.glitchesCache (countGlitches r.dice) = true

instance (r : Roll) : Decidable r.WF := by
  unfold Roll.WF; infer_instance

/-- The pool-size invariant of a Roll: the stored construction argument is
an int k with 1 <= k and k <= len(dice). -/
def Roll.Inv (r : Roll) : Bool :=
  match r.original_dice_pool with
  | .int k => decide (1 ≤ k) && decide (k.toNat ≤ r.dice.length)
  | .nonInt => false

/-- The state of a SuccessTest object: threshold, edge, and the owned Roll. -/
structure SuccessTest where
  threshold : Int
  edge : Bool
  roll : Roll
deriving DecidableEq, Repr

namespace SuccessTest

/-- SuccessTest.__init__: store threshold and edge and construct the Roll. -/
def init (interp : Interp) (dice_pool : PyVal) (threshold : Int)
    (edge : Bool) (script : List Nat) :
    Except RollErr (SuccessTest × List Nat) :=
  match Roll.init interp dice_pool edge script with
  | .error e => .error e
  | .ok (r, rest) => .ok ({ threshold := threshold, edge := edge, roll := r }, rest)

/-- The hits property: delegates to the owned roll. -/
def hits (t : SuccessTest) : Nat × SuccessTest :=
  let p := t.roll.hits
  (p.1, { t with roll := p.2 })

/-- The glitch property: delegates to the owned roll. -/
def glitch (t : SuccessTest) : Bool × SuccessTest :=
  let p := t.roll.glitch
  (p.1, { t with roll := p.2 })

/-- The fumble property: delegates to the owned roll. -/
def fumble (t : SuccessTest) : Bool × SuccessTest :=
  let p := t.roll.fumble
  (p.1, { t with roll := p.2 })

/-- The success property: self.hits >= self.threshold. -/
def success (t : SuccessTest) : Bool × SuccessTest :=
  let p := t.hits
  (decide ((p.1 : Int) ≥ p.2.threshold), p.2)

/-- The net_hits property: max(self.hits - self.threshold, 0). -/
def net_hits (t : SuccessTest) : Int × SuccessTest :=
  let p := t.hits
  (max ((p.1 : Int) - p.2.threshold) 0, p.2)

/-- The crit property: self.net_hits >= 4. -/
def crit (t : SuccessTest) : Bool × SuccessTest :=
  let p := t.net_hits
  (decide (p.1 ≥ 4), p.2)

/-- SuccessTest.reroll: delegates to the owned roll's reroll. -/
def reroll (interp : Interp) (t : SuccessTest) (script : List Nat) :
    Except RollErr Unit × SuccessTest × List Nat :=
  let p := Roll.reroll interp t.roll script
  (p.1, { t with roll := p.2.1 }, p.2.2)

end SuccessTest

/-- A mutating operation on an existing Roll. -/
inductive Op where
  | addDice (dice_pool : PyVal)
  | rerollMisses
deriving DecidableEq

/-- Run one operation on a Roll with the current script. -/
def runOp (interp : Interp) (r : Roll) (op : Op) (script : List Nat) :
    Except RollErr Unit × Roll × List Nat :=
  match op with
  | .addDice pv => Roll.add interp r pv script
  | .rerollMisses => Roll.reroll interp r script

/-- Run a sequence of operations, stopping at the first raised error. -/
def runOps (interp : Interp) : Roll → List Op → List Nat →
    Except RollErr (Roll × List Nat)
  | r, [], script => .ok (r, script)
  | r, op :: ops, script =>
    match runOp interp r op script with
    | (.error e, _, _) => .error e
    | (.ok _, r', script') => runOps interp r' ops script'

/-- Construct a Roll and run a sequence of operations over one script, the
way the test suite feeds a single scripted iterator through a scenario. -/
def runScript (interp : Interp) (dice_pool : PyVal) (edge : Bool)
    (ops : List Op) (script : List Nat) : Except RollErr (Roll × List Nat) :=
  match Roll.init interp dice_pool edge script with
  | .error e => .error e
  | .ok (r, rest) => runOps interp r ops rest

/-- All derived observables of a Roll: faces, size, hits, glitches, glitch
and fumble flags, as read through the properties. -/
def observe (r : Roll) : List Nat × Nat × Nat × Nat × Bool × Bool :=
  (r.dice, r.dice_pool.1, r.hits.1, r.glitches.1, r.glitch.1, r.fumble.1)

/-! ### Basic lemmas about the counting helpers and the half-or-more rule -/

/-- The fractional comparison of the glitch rule is the same test as
doubling the glitch count. -/
theorem halfOrMore_eq (g dp : Nat) : halfOrMore g dp = decide (dp ≤ 2 * g) := by
  simp only [halfOrMore, decide_eq_decide, ge_iff_le,
    div_le_iff₀ (by norm_num : (0:ℚ) < 2)]
  rw [mul_comm]
  exact_mod_cast Iff.rfl

/-- There are at most as many hits as faces. -/
theorem countHits_le (dice : List Nat) : countHits dice ≤ dice.length :=
  List.length_filter_le _ _

/-! ### Lemmas about the rolling loop -/

/-- The rolling loop produces at least one face per requested die. -/
theorem rollDice_length_ge (interp : Interp) (edge : Bool) (n : Nat) :
    ∀ s d rest, rollDice interp edge n s = some (d, rest) → n ≤ d.length := by
  induction n with
  | zero => intro s d rest _; exact Nat.zero_le _
  | succ n ih =>
    intro s d rest h
    cases s with
    | nil => simp [rollDice, draw] at h
    | cons v s' =>
      simp only [rollDice, draw] at h
      by_cases hc : interp 1 7 v = 6 ∧ edge = true
      · rw [if_pos hc] at h
        cases hsc : sixChain interp s' with
        | none => simp [hsc] at h
        | some p =>
          obtain ⟨chain, rest2⟩ := p
          simp only [hsc] at h
          cases hr : rollDice interp edge n rest2 with
          | none => simp [hr] at h
          | some q =>
            obtain ⟨more, rest3⟩ := q
            simp only [hr, Option.some.injEq, Prod.mk.injEq] at h
            obtain ⟨hd, hrest⟩ := h
            subst hd
            have := ih _ _ _ hr
            simp only [List.length_cons, List.length_append]
            omega
      · rw [if_neg hc] at h
        cases hr : rollDice interp edge n s' with
        | none => simp [hr] at h
        | some q =>
          obtain ⟨more, rest2⟩ := q
          simp only [hr, Option.some.injEq, Prod.mk.injEq] at h
          obtain ⟨hd, hrest⟩ := h
          subst hd
          have := ih _ _ _ hr
          simp only [List.length_cons]
          omega

/-- Without edge the rolling loop produces exactly one face per die. -/
theorem rollDice_false_length (interp : Interp) (n : Nat) :
    ∀ s d rest, rollDice interp false n s = some (d, rest) → d.length = n := by
  induction n with
  | zero =>
    intro s d rest h
    simp only [rollDice] at h
    cases h
    rfl
  | succ n ih =>
    intro s d rest h
    cases s with
    | nil => simp [rollDice, draw] at h
    | cons v s' =>
      simp only [rollDice, draw] at h
      rw [if_neg (by simp)] at h
      cases hr : rollDice interp false n s' with
      | none => simp [hr] at h
      | some q =>
        obtain ⟨more, rest2⟩ := q
        simp only [hr, Option.some.injEq, Prod.mk.injEq] at h
        obtain ⟨hd, hrest⟩ := h
        subst hd
        have := ih _ _ _ hr
        simp only [List.length_cons]
        omega

/-- Under the real randrange bounds an explosion roll is 1 + v % 5, a face
between 1 and 5, so the while loop always stops after its first
iteration. -/
theorem sixChain_uniform (v : Nat) (rest : List Nat) :
    sixChain uniformInterp (v :: rest) = some ([1 + v % 5], rest) := by
  have hne : uniformInterp 1 6 v ≠ 6 := by
    have : v % 5 < 5 := Nat.mod_lt _ (by omega)
    simp only [uniformInterp]
    omega
  simp only [sixChain, uniformInterp] at hne ⊢
  rw [if_neg hne]

/-- Under the real randrange bounds every face the rolling loop produces is
between 1 and 6. -/
theorem rollDice_uniform_mem (edge : Bool) (n : Nat) :
    ∀ s d rest, rollDice uniformInterp edge n s = some (d, rest) →
      ∀ x ∈ d, 1 ≤ x ∧ x ≤ 6 := by
  induction n with
  | zero =>
    intro s d rest h x hx
    simp only [rollDice, Option.some.injEq, Prod.mk.injEq] at h
    rw [← h.1] at hx
    cases hx
  | succ n ih =>
    intro s d rest h x hx
    cases s with
    | nil => simp [rollDice, draw] at h
    | cons v s' =>
      have hbase : 1 ≤ uniformInterp 1 7 v ∧ uniformInterp 1 7 v ≤ 6 := by
        have : v % 6 < 6 := Nat.mod_lt _ (by omega)
        simp only [uniformInterp]
        omega
      simp only [rollDice, draw] at h
      by_cases hc : uniformInterp 1 7 v = 6 ∧ edge = true
      · rw [if_pos hc] at h
        cases s' with
        | nil => simp [sixChain] at h
        | cons w s'' =>
          rw [sixChain_uniform] at h
          have hchain : 1 ≤ 1 + w % 5 ∧ 1 + w % 5 ≤ 6 := by
            have : w % 5 < 5 := Nat.mod_lt _ (by omega)
            omega
          cases hr : rollDice uniformInterp edge n s'' with
          | none => simp [hr] at h
          | some q =>
            obtain ⟨more, rest3⟩ := q
            simp only [hr, Option.some.injEq, Prod.mk.injEq] at h
            rw [← h.1] at hx
            simp only [List.cons_append, List.nil_append, List.mem_cons] at hx
            rcases hx with hx | hx | hx
            · rw [hx]; exact hbase
            · rw [hx]; exact hchain
            · exact ih _ _ _ hr x hx
      · rw [if_neg hc] at h
        cases hr : rollDice uniformInterp edge n s' with
        | none => simp [hr] at h
        | some q =>
          obtain ⟨more, rest2⟩ := q
          simp only [hr, Option.some.injEq, Prod.mk.injEq] at h
          rw [← h.1] at hx
          simp only [List.mem_cons] at hx
          rcases hx with hx | hx
          · rw [hx]; exact hbase
          · exact ih _ _ _ hr x hx

/-- Under the real randrange bounds a script of twice the pool size is
always enough for the rolling loop to complete. -/
theorem rollDice_uniform_success (edge : Bool) (n : Nat) :
    ∀ s, 2 * n ≤ s.length →
      ∃ d rest, rollDice uniformInterp edge n s = some (d, rest) := by
  induction n with
  | zero => intro s _; exact ⟨[], s, rfl⟩
  | succ n ih =>
    intro s hs
    cases s with
    | nil => simp at hs
    | cons v s' =>
      simp only [List.length_cons] at hs
      simp only [rollDice, draw]
      by_cases hc : uniformInterp 1 7 v = 6 ∧ edge = true
      · rw [if_pos hc]
        cases s' with
        | nil => simp only [List.length_nil] at hs; omega
        | cons w s'' =>
          rw [sixChain_uniform]
          simp only [List.length_cons] at hs
          obtain ⟨d, rest, hd⟩ := ih s'' (by omega)
          refine ⟨uniformInterp 1 7 v :: ([1 + w % 5] ++ d), rest, ?_⟩
          simp only [hd]
      · rw [if_neg hc]
        obtain ⟨d, rest, hd⟩ := ih s' (by omega)
        refine ⟨uniformInterp 1 7 v :: d, rest, ?_⟩
        simp only [hd]

/-! ### Script-extension lemmas: a run only looks at the prefix it consumes -/

/-- Extending the script beyond what the explosion loop consumes does not
change its result. -/
theorem sixChain_ext (interp : Interp) :
    ∀ s chain rest t, sixChain interp s = some (chain, rest) →
      sixChain interp (s ++ t) = some (chain, rest ++ t) := by
  intro s
  induction s with
  | nil => intro chain rest t h; simp [sixChain] at h
  | cons v s' ih =>
    intro chain rest t h
    simp only [sixChain, List.cons_append, List.append_eq] at h ⊢
    by_cases hc : interp 1 6 v = 6
    · rw [if_pos hc] at h ⊢
      cases hsc : sixChain interp s' with
      | none => simp [hsc] at h
      | some p =>
        obtain ⟨chain2, rest2⟩ := p
        simp only [hsc, Option.some.injEq, Prod.mk.injEq] at h
        simp only [ih _ _ t hsc, Option.some.injEq, Prod.mk.injEq]
        exact ⟨h.1, by rw [← h.2]⟩
    · rw [if_neg hc] at h ⊢
      simp only [Option.some.injEq, Prod.mk.injEq] at h ⊢
      exact ⟨h.1, by rw [← h.2]⟩

/-- Extending the script beyond what the rolling loop consumes does not
change its result. -/
theorem rollDice_ext (interp : Interp) (edge : Bool) (n : Nat) :
    ∀ s d rest t, rollDice interp edge n s = some (d, rest) →
      rollDice interp edge n (s ++ t) = some (d, rest ++ t) := by
  induction n with
  | zero =>
    intro s d rest t h
    simp only [rollDice, Option.some.injEq, Prod.mk.injEq] at h ⊢
    exact ⟨h.1, by rw [← h.2]⟩
  | succ n ih =>
    intro s d rest t h
    cases s with
    | nil => simp [rollDice, draw] at h
    | cons v s' =>
      simp only [rollDice, draw, List.cons_append, List.append_eq] at h ⊢
      by_cases hc : interp 1 7 v = 6 ∧ edge = true
      · rw [if_pos hc] at h ⊢
        cases hsc : sixChain interp s' with
        | none => simp [hsc] at h
        | some p =>
          obtain ⟨chain, rest2⟩ := p
          simp only [hsc] at h
          simp only [sixChain_ext interp s' chain rest2 t hsc]
          cases hr : rollDice interp edge n rest2 with
          | none => simp [hr] at h
          | some q =>
            obtain ⟨more, rest3⟩ := q
            simp only [hr, Option.some.injEq, Prod.mk.injEq] at h
            simp only [ih _ _ _ t hr, Option.some.injEq, Prod.mk.injEq]
            exact ⟨h.1, by rw [← h.2]⟩
      · rw [if_neg hc] at h ⊢
        cases hr : rollDice interp edge n s' with
        | none => simp [hr] at h
        | some q =>
          obtain ⟨more, rest2⟩ := q
          simp only [hr, Option.some.injEq, Prod.mk.injEq] at h
          simp only [ih _ _ _ t hr, Option.some.injEq, Prod.mk.injEq]
          exact ⟨h.1, by rw [← h.2]⟩

/-- Extending the script beyond what _roll consumes does not change its
result. -/
theorem rollMethod_ext (interp : Interp) (pv : PyVal) (edge : Bool)
    (s d rest t : List Nat) (h : rollMethod interp pv edge s = .ok (d, rest)) :
    rollMethod interp pv edge (s ++ t) = .ok (d, rest ++ t) := by
  cases pv with
  | nonInt => simp [rollMethod, badSize] at h
  | int n =>
    simp only [rollMethod] at h ⊢
    by_cases hb : badSize (PyVal.int n) = true
    · simp [hb] at h
    · rw [if_neg hb] at h ⊢
      cases hr : rollDice interp edge n.toNat s with
      | none => simp [hr] at h
      | some q =>
        obtain ⟨d2, rest2⟩ := q
        simp only [hr, Except.ok.injEq, Prod.mk.injEq] at h
        simp only [rollDice_ext interp edge n.toNat s d2 rest2 t hr,
          Except.ok.injEq, Prod.mk.injEq]
        exact ⟨h.1, by rw [← h.2]⟩

/-! ### Lemmas about _roll validation and Roll construction -/

/-- _roll raises ValueError exactly on bad pool sizes. -/
theorem rollMethod_bad (interp : Interp) (pv : PyVal) (edge : Bool)
    (s : List Nat) (h : badSize pv = true) :
    rollMethod interp pv edge s = .error .invalidPoolSize := by
  simp [rollMethod, h]

/-- For a positive int the validation passes and _roll just rolls. -/
theorem rollMethod_pos (interp : Interp) (k : Int) (edge : Bool)
    (s : List Nat) (hk : 1 ≤ k) :
    rollMethod interp (.int k) edge s =
      match rollDice interp edge k.toNat s with
      | none => .error .scriptExhausted
      | some res => .ok res := by
  have hb : badSize (.int k) = false := by
    simp only [badSize, decide_eq_false_iff_not]
    omega
  simp [rollMethod, hb]

/-- _roll never raises ValueError on a positive int pool size. -/
theorem rollMethod_ne_invalid (interp : Interp) (n : Int) (edge : Bool)
    (s : List Nat) (h : 1 ≤ n) :
    rollMethod interp (.int n) edge s ≠ .error .invalidPoolSize := by
  rw [rollMethod_pos interp n edge s h]
  cases hr : rollDice interp edge n.toNat s with
  | none => simp
  | some q => simp

/-- A successful _roll came from a positive int pool size and the rolling
loop. -/
theorem rollMethod_ok_elim (interp : Interp) (pv : PyVal) (edge : Bool)
    (s d rest : List Nat) (h : rollMethod interp pv edge s = .ok (d, rest)) :
    ∃ n : Int, pv = .int n ∧ 1 ≤ n ∧
      rollDice interp edge n.toNat s = some (d, rest) := by
  cases pv with
  | nonInt => simp [rollMethod, badSize] at h
  | int n =>
    by_cases hb : badSize (.int n) = true
    · rw [rollMethod_bad interp _ edge s hb] at h
      cases h
    · have h1 : 1 ≤ n := by
        simp only [badSize, decide_eq_true_eq] at hb
        omega
      rw [rollMethod_pos interp n edge s h1] at h
      cases hr : rollDice interp edge n.toNat s with
      | none => simp [hr] at h
      | some q =>
        obtain ⟨d2, rest2⟩ := q
        simp only [hr, Except.ok.injEq, Prod.mk.injEq] at h
        rw [h.1, h.2] at hr
        exact ⟨n, rfl, h1, hr⟩

/-- A failed construction raises ValueError and produces no object. -/
theorem init_bad (interp : Interp) (pv : PyVal) (edge : Bool)
    (s : List Nat) (h : badSize pv = true) :
    Roll.init interp pv edge s = .error .invalidPoolSize := by
  simp [Roll.init, rollMethod_bad interp pv edge s h]

/-- A successful construction stores the argument, the rolled faces, the
eagerly cached size, and empty hit and glitch caches. -/
theorem init_ok_elim (interp : Interp) (pv : PyVal) (edge : Bool)
    (s : List Nat) (r : Roll) (rest : List Nat)
    (h : Roll.init interp pv edge s = .ok (r, rest)) :
    rollMethod interp pv edge s = .ok (r.dice, rest) ∧
      r = ⟨pv, r.dice, some r.dice.length, none, none⟩ := by
  unfold Roll.init at h
  cases hm : rollMethod interp pv edge s with
  | error e => simp [hm] at h
  | ok q =>
    obtain ⟨d, rest2⟩ := q
    simp only [hm, Except.ok.injEq, Prod.mk.injEq] at h
    obtain ⟨h1, h2⟩ := h
    subst h2
    rw [← h1]
    exact ⟨rfl, rfl⟩

/-! ### Characterization of the memoized property reads -/

/-- Unfolding cache consistency over an explicit state. -/
theorem WF_mk (o : PyVal) (d : List Nat) (c1 c2 c3 : Option Nat) :
    (Roll.mk o d c1 c2 c3).WF ↔
      (cacheOK c1 d.length = true ∧ cacheOK c2 (countHits d) = true ∧
        cacheOK c3 (countGlitches d) = true) := Iff.rfl

/-- A consistent dice_pool read returns the face count and fills the size
cache. -/
theorem dice_pool_mk (o : PyVal) (d : List Nat) (c1 c2 c3 : Option Nat)
    (h : cacheOK c1 d.length = true) :
    (Roll.mk o d c1 c2 c3).dice_pool = (d.length, Roll.mk o d (some d.length) c2 c3) := by
  cases c1 with
  | none => rfl
  | some v =>
    simp only [cacheOK, Option.getD_some, beq_iff_eq] at h
    simp [Roll.dice_pool, h]

/-- A consistent hits read returns the hit count and fills the hit cache. -/
theorem hits_mk (o : PyVal) (d : List Nat) (c1 c2 c3 : Option Nat)
    (h : cacheOK c2 (countHits d) = true) :
    (Roll.mk o d c1 c2 c3).hits = (countHits d, Roll.mk o d c1 (some (countHits d)) c3) := by
  cases c2 with
  | none => rfl
  | some v =>
    simp only [cacheOK, Option.getD_some, beq_iff_eq] at h
    simp [Roll.hits, h]

/-- A consistent glitches read returns the glitch count and fills the
glitch cache. -/
theorem glitches_mk (o : PyVal) (d : List Nat) (c1 c2 c3 : Option Nat)
    (h : cacheOK c3 (countGlitches d) = true) :
    (Roll.mk o d c1 c2 c3).glitches =
      (countGlitches d, Roll.mk o d c1 c2 (some (countGlitches d))) := by
  cases c3 with
  | none => rfl
  | some v =>
    simp only [cacheOK, Option.getD_some, beq_iff_eq] at h
    simp [Roll.glitches, h]

/-- A consistent glitch read performs the half-or-more comparison on the
glitch count and face count, filling both caches it touches. -/
theorem glitch_mk (o : PyVal) (d : List Nat) (c1 c2 c3 : Option Nat)
    (h1 : cacheOK c1 d.length = true) (h3 : cacheOK c3 (countGlitches d) = true) :
    (Roll.mk o d c1 c2 c3).glitch =
      (halfOrMore (countGlitches d) d.length,
        Roll.mk o d (some d.length) c2 (some (countGlitches d))) := by
  simp only [Roll.glitch, glitches_mk o d c1 c2 c3 h3,
    dice_pool_mk o d c1 c2 (some (countGlitches d)) h1]

/-- A consistent fumble read is the conjunction of the glitch test and
having zero hits; the hit cache is only filled when the glitch test
passes, because Python's `and` short-circuits. -/
theorem fumble_mk (o : PyVal) (d : List Nat) (c1 c2 c3 : Option Nat)
    (h1 : cacheOK c1 d.length = true) (h2 : cacheOK c2 (countHits d) = true)
    (h3 : cacheOK c3 (countGlitches d) = true) :
    (Roll.mk o d c1 c2 c3).fumble =
      ((halfOrMore (countGlitches d) d.length && decide (countHits d = 0)),
        if halfOrMore (countGlitches d) d.length then
          Roll.mk o d (some d.length) (some (countHits d)) (some (countGlitches d))
        else Roll.mk o d (some d.length) c2 (some (countGlitches d))) := by
  simp only [Roll.fumble, glitch_mk o d c1 c2 c3 h1 h3]
  by_cases hb : halfOrMore (countGlitches d) d.length = true
  · simp only [hb, if_true, Bool.true_and,
      hits_mk o d (some d.length) c2 (some (countGlitches d)) h2]
  · simp only [Bool.not_eq_true] at hb
    simp [hb]

/-! ### Characterization of add and reroll -/

/-- When _roll raises, add propagates the error and mutates nothing. -/
theorem add_err (interp : Interp) (r : Roll) (pv : PyVal) (s : List Nat)
    (e : RollErr) (h : rollMethod interp pv true s = .error e) :
    Roll.add interp r pv s = (.error e, r, s) := by
  unfold Roll.add
  rw [h]

/-- A successful add appends exactly an edge roll of the requested size and
empties all three caches. -/
theorem add_ok_elim (interp : Interp) (r : Roll) (pv : PyVal) (s : List Nat)
    (u : Unit) (r' : Roll) (rest : List Nat)
    (h : Roll.add interp r pv s = (.ok u, r', rest)) :
    ∃ new, rollMethod interp pv true s = .ok (new, rest) ∧
      r' = ⟨r.original_dice_pool, r.dice ++ new, none, none, none⟩ := by
  unfold Roll.add at h
  cases hm : rollMethod interp pv true s with
  | error e => rw [hm] at h; cases h
  | ok q =>
    obtain ⟨new, rest2⟩ := q
    simp only [hm, Prod.mk.injEq] at h
    refine ⟨new, ?_, ?_⟩
    · rw [h.2.2]
    · rw [← h.2.1]

/-- When the caches are consistent, reroll keeps the hit faces, rolls
size - hits fresh dice without edge when that count is positive, and
otherwise does nothing beyond filling the size and hit caches. -/
theorem reroll_mk (interp : Interp) (o : PyVal) (d : List Nat)
    (c1 c2 c3 : Option Nat) (s : List Nat)
    (h1 : cacheOK c1 d.length = true) (h2 : cacheOK c2 (countHits d) = true) :
    Roll.reroll interp (Roll.mk o d c1 c2 c3) s =
      if countHits d < d.length then
        match rollDice interp false (d.length - countHits d) s with
        | none =>
          (.error .scriptExhausted,
            Roll.mk o d (some d.length) (some (countHits d)) c3, s)
        | some (fresh, rest) =>
          (.ok (),
            Roll.mk o (d.filter (fun x => decide (4 < x)) ++ fresh)
              (some d.length) none none, rest)
      else (.ok (), Roll.mk o d (some d.length) (some (countHits d)) c3, s) := by
  simp only [Roll.reroll, dice_pool_mk o d c1 c2 c3 h1,
    hits_mk o d (some d.length) c2 c3 h2]
  by_cases hlt : countHits d < d.length
  · rw [if_pos (by omega : (0 : Int) < (d.length : Int) - (countHits d : Int)),
      if_pos hlt,
      rollMethod_pos interp ((d.length : Int) - (countHits d : Int)) false s (by omega)]
    have htn : ((d.length : Int) - (countHits d : Int)).toNat
        = d.length - countHits d := by omega
    rw [htn]
    cases hr : rollDice interp false (d.length - countHits d) s with
    | none => simp [hr]
    | some q => obtain ⟨fresh, rest⟩ := q; simp [hr]
  · rw [if_neg (by omega : ¬ ((0 : Int) < (d.length : Int) - (countHits d : Int))),
      if_neg hlt]

/-! ### Script extension through whole operation sequences -/

/-- Extending the script does not change a successful add. -/
theorem add_ext (interp : Interp) (r : Roll) (pv : PyVal)
    (s : List Nat) (u : Unit) (r' : Roll) (s' t : List Nat)
    (h : Roll.add interp r pv s = (.ok u, r', s')) :
    Roll.add interp r pv (s ++ t) = (.ok u, r', s' ++ t) := by
  unfold Roll.add at h ⊢
  cases hm : rollMethod interp pv true s with
  | error e => simp [hm] at h
  | ok q =>
    obtain ⟨new, rest⟩ := q
    simp only [hm, Prod.mk.injEq] at h
    simp only [rollMethod_ext interp pv true s new rest t hm, Prod.mk.injEq]
    exact ⟨h.1, h.2.1, by rw [← h.2.2]⟩

/-- Extending the script does not change a successful reroll. -/
theorem reroll_ext (interp : Interp) (r : Roll) (s : List Nat)
    (u : Unit) (r' : Roll) (s' t : List Nat)
    (h : Roll.reroll interp r s = (.ok u, r', s')) :
    Roll.reroll interp r (s ++ t) = (.ok u, r', s' ++ t) := by
  simp only [Roll.reroll] at h ⊢
  by_cases hlt : (0 : Int) < ((r.dice_pool.1 : Int) - (r.dice_pool.2.hits.1 : Int))
  · rw [if_pos hlt] at h ⊢
    cases hm : rollMethod interp
        (.int ((r.dice_pool.1 : Int) - (r.dice_pool.2.hits.1 : Int))) false s with
    | error e => simp [hm] at h
    | ok q =>
      obtain ⟨fresh, rest⟩ := q
      simp only [hm, Prod.mk.injEq] at h
      simp only [rollMethod_ext interp _ false s fresh rest t hm, Prod.mk.injEq]
      exact ⟨h.1, h.2.1, by rw [← h.2.2]⟩
  · rw [if_neg hlt] at h ⊢
    simp only [Prod.mk.injEq] at h ⊢
    exact ⟨h.1, h.2.1, by rw [← h.2.2]⟩

/-- Extending the script does not change a successful construction. -/
theorem init_ext (interp : Interp) (pv : PyVal) (edge : Bool)
    (s : List Nat) (r : Roll) (rest t : List Nat)
    (h : Roll.init interp pv edge s = .ok (r, rest)) :
    Roll.init interp pv edge (s ++ t) = .ok (r, rest ++ t) := by
  unfold Roll.init at h ⊢
  cases hm : rollMethod interp pv edge s with
  | error e => simp [hm] at h
  | ok q =>
    obtain ⟨d, rest2⟩ := q
    simp only [hm, Except.ok.injEq, Prod.mk.injEq] at h
    simp only [rollMethod_ext interp pv edge s d rest2 t hm, Except.ok.injEq,
      Prod.mk.injEq]
    exact ⟨h.1, by rw [← h.2]⟩

/-- Extending the script does not change a successful operation. -/
theorem runOp_ext (interp : Interp) (r : Roll) (op : Op)
    (s : List Nat) (u : Unit) (r' : Roll) (s' t : List Nat)
    (h : runOp interp r op s = (.ok u, r', s')) :
    runOp interp r op (s ++ t) = (.ok u, r', s' ++ t) := by
  cases op with
  | addDice pv => exact add_ext interp r pv s u r' s' t h
  | rerollMisses => exact reroll_ext interp r s u r' s' t h

/-- Extending the script does not change a successful operation sequence. -/
theorem runOps_ext (interp : Interp) :
    ∀ ops r s r' rest t, runOps interp r ops s = .ok (r', rest) →
      runOps interp r ops (s ++ t) = .ok (r', rest ++ t) := by
  intro ops
  induction ops with
  | nil =>
    intro r s r' rest t h
    simp only [runOps, Except.ok.injEq, Prod.mk.injEq] at h ⊢
    exact ⟨h.1, by rw [← h.2]⟩
  | cons op ops ih =>
    intro r s r' rest t h
    simp only [runOps] at h ⊢
    cases hop : runOp interp r op s with
    | mk e pr =>
      obtain ⟨r2, s2⟩ := pr
      cases e with
      | error e0 => simp only [hop] at h; cases h
      | ok u =>
        simp only [hop] at h
        simp only [runOp_ext interp r op s u r2 s2 t hop]
        exact ih r2 s2 r' rest t h

/-- Extending the script does not change a successful scenario run. -/
theorem runScript_ext (interp : Interp) (pv : PyVal) (edge : Bool)
    (ops : List Op) (s : List Nat) (r : Roll) (rest t : List Nat)
    (h : runScript interp pv edge ops s = .ok (r, rest)) :
    runScript interp pv edge ops (s ++ t) = .ok (r, rest ++ t) := by
  unfold runScript at h ⊢
  cases hi : Roll.init interp pv edge s with
  | error e => simp [hi] at h
  | ok q =>
    obtain ⟨r0, s0⟩ := q
    simp only [hi] at h
    simp only [init_ext interp pv edge s r0 s0 t hi]
    exact runOps_ext interp ops r0 s0 r rest t h

/-- A successful reroll either was a no-op that only filled the size and
hit caches (when every face is a hit), or replaced the faces with the
preserved hit faces followed by a fresh non-edge roll of the missing
count. -/
theorem reroll_ok_cases (interp : Interp) (r : Roll) (s : List Nat)
    (u : Unit) (r' : Roll) (rest : List Nat) (hwf : r.WF)
    (h : Roll.reroll interp r s = (.ok u, r', rest)) :
    (r.dice.length ≤ countHits r.dice ∧ rest = s ∧
      r' = ⟨r.original_dice_pool, r.dice, some r.dice.length,
        some (countHits r.dice), r.glitchesCache⟩) ∨
    (countHits r.dice < r.dice.length ∧
      ∃ fresh, rollDice interp false (r.dice.length - countHits r.dice) s
          = some (fresh, rest) ∧
        r' = ⟨r.original_dice_pool,
          r.dice.filter (fun x => decide (4 < x)) ++ fresh,
          some r.dice.length, none, none⟩) := by
  obtain ⟨o, d, c1, c2, c3⟩ := r
  rw [WF_mk] at hwf
  obtain ⟨h1, h2, h3⟩ := hwf
  dsimp only
  rw [reroll_mk interp o d c1 c2 c3 s h1 h2] at h
  by_cases hlt : countHits d < d.length
  · rw [if_pos hlt] at h
    cases hr : rollDice interp false (d.length - countHits d) s with
    | none => simp [hr] at h
    | some q =>
      obtain ⟨fresh, rest2⟩ := q
      simp only [hr, Prod.mk.injEq] at h
      right
      refine ⟨hlt, fresh, ?_, ?_⟩
      · rw [h.2.2]
      · rw [← h.2.1]
  · rw [if_neg hlt] at h
    simp only [Prod.mk.injEq] at h
    left
    exact ⟨by omega, h.2.2.symm, h.2.1.symm⟩

/-- A fumble read reporting true implies the glitch read reports true. -/
theorem fumble_imp_glitch (r : Roll) (h : r.fumble.1 = true) :
    r.glitch.1 = true := by
  by_cases hg : r.glitch.1 = true
  · exact hg
  · rw [Bool.not_eq_true] at hg
    simp [Roll.fumble, hg] at h

/-- The pool-size invariant of a state holding an int argument. -/
theorem Inv_mk (k : Int) (d : List Nat) (c1 c2 c3 : Option Nat) :
    (Roll.mk (.int k) d c1 c2 c3).Inv = true ↔
      (1 ≤ k ∧ k.toNat ≤ d.length) := by
  simp [Roll.Inv]

/-- An invariant-satisfying pool stores a positive int construction size
bounded by its face count. -/
theorem Inv_int (r : Roll) (h : r.Inv = true) :
    ∃ k : Int, r.original_dice_pool = .int k ∧ 1 ≤ k ∧
      k.toNat ≤ r.dice.length := by
  unfold Roll.Inv at h
  cases ho : r.original_dice_pool with
  | nonInt => rw [ho] at h; cases h
  | int k =>
    rw [ho] at h
    simp only [Bool.and_eq_true, decide_eq_true_eq] at h
    exact ⟨k, rfl, h.1, h.2⟩

/-! ### Claim theorems -/

/-- Claim C1 (code bug): the claim says explosion re-rolls range over the
inclusive interval 1..6 and chains continue whenever the new face is again
a 6.  Under the real bounds of random.randrange(1, 6) the explosion roll
is 1 + v % 5, a face of at most 5, so the while loop always appends
exactly one extra die and a chain can never continue; a chained 6 is only
reachable through the test suite's patched randrange, which ignores the
bounds. -/
theorem explosion_roll_range_bug :
    (∀ (v : Nat) (rest : List Nat),
      sixChain uniformInterp (v :: rest) = some ([1 + v % 5], rest) ∧
        1 + v % 5 ≤ 5) ∧
    rollDice uniformInterp true 1 [5, 5] = some ([6, 1], []) ∧
    sixChain scriptedInterp [6, 6, 5, 2] = some ([6, 6, 5], [2]) := by
  refine ⟨fun v rest => ⟨sixChain_uniform v rest, ?_⟩, by decide, by decide⟩
  have : v % 5 < 5 := Nat.mod_lt _ (by omega)
  omega

/-- Claim C2 (counterexample): constructing from the scripted faces
1,2,3 and then adding 3 dice fed 6,2,3,6,1,4 does not produce the faces
1,2,3,6,2,3,6,1,4 of size 9 the claim states: the run stops after
consuming 6,2,3,6,1, leaving the final 4 unread, so the faces are
1,2,3,6,2,3,6,1 of size 8. -/
theorem add_example_counterexample :
    runScript scriptedInterp (.int 3) false [.addDice (.int 3)]
        [1, 2, 3, 6, 2, 3, 6, 1, 4]
      = .ok (⟨.int 3, [1, 2, 3, 6, 2, 3, 6, 1], none, none, none⟩, [4]) ∧
    ([1, 2, 3, 6, 2, 3, 6, 1] : List Nat) ≠ [1, 2, 3, 6, 2, 3, 6, 1, 4] ∧
    ([1, 2, 3, 6, 2, 3, 6, 1] : List Nat).length ≠ 9 := by
  exact ⟨by decide, by decide, by decide⟩

/-- Claim C2 (amended): add always rolls with exploding enabled, whatever
edge flag the pool was built with, and appends the rolled faces in roll
order; the scripted example of the claim yields final faces
1,2,3,6,2,3,6,1 of size 8 (each added 6 explodes into exactly one extra
die: the first into the 2, the second into the 1, and the trailing 4 of
the script is never consumed). -/
theorem add_always_edge_amended :
    (∀ (interp : Interp) (r : Roll) (pv : PyVal) (s : List Nat) (u : Unit)
        (r' : Roll) (rest : List Nat),
      Roll.add interp r pv s = (.ok u, r', rest) →
      ∃ new, rollMethod interp pv true s = .ok (new, rest) ∧
        r'.dice = r.dice ++ new) ∧
    runScript scriptedInterp (.int 3) false [.addDice (.int 3)]
        [1, 2, 3, 6, 2, 3, 6, 1, 4]
      = .ok (⟨.int 3, [1, 2, 3, 6, 2, 3, 6, 1], none, none, none⟩, [4]) ∧
    (Roll.dice_pool ⟨.int 3, [1, 2, 3, 6, 2, 3, 6, 1], none, none, none⟩).1 = 8 := by
  refine ⟨?_, by decide, by decide⟩
  intro interp r pv s u r' rest h
  obtain ⟨new, hm, hr⟩ := add_ok_elim interp r pv s u r' rest h
  exact ⟨new, hm, by rw [hr]⟩

/-- Witness for the amended claim C2: the general part applied to the
concrete scripted run of the example. -/
theorem add_always_edge_amended_witness :
    ∃ new, rollMethod scriptedInterp (.int 3) true [6, 2, 3, 6, 1, 4] = .ok (new, [4]) ∧
      (⟨.int 3, [1, 2, 3, 6, 2, 3, 6, 1], none, none, none⟩ : Roll).dice
        = (⟨.int 3, [1, 2, 3], some 3, none, none⟩ : Roll).dice ++ new :=
  add_always_edge_amended.1 scriptedInterp ⟨.int 3, [1, 2, 3], some 3, none, none⟩
    (.int 3) [6, 2, 3, 6, 1, 4] () ⟨.int 3, [1, 2, 3, 6, 2, 3, 6, 1], none, none, none⟩
    [4] (by decide)

/-- Claim C3: pool sizes that are not positive ints make construction and
add raise ValueError (the single InvalidPoolSize error kind), which
propagates unchanged, and a failed add mutates nothing; positive int sizes
never raise it, and with the real randrange bounds and enough randomness
both operations succeed outright. -/
theorem pool_size_validation :
    (∀ (interp : Interp) (pv : PyVal) (edge : Bool) (s : List Nat),
      badSize pv = true → Roll.init interp pv edge s = .error .invalidPoolSize) ∧
    (∀ (interp : Interp) (r : Roll) (pv : PyVal) (s : List Nat),
      badSize pv = true →
        Roll.add interp r pv s = (.error .invalidPoolSize, r, s)) ∧
    (∀ (interp : Interp) (n : Int) (edge : Bool) (s : List Nat), 1 ≤ n →
      Roll.init interp (.int n) edge s ≠ .error .invalidPoolSize) ∧
    (∀ (interp : Interp) (r : Roll) (n : Int) (s : List Nat), 1 ≤ n →
      (Roll.add interp r (.int n) s).1 ≠ .error .invalidPoolSize) ∧
    (∀ (n : Int) (edge : Bool) (s : List Nat), 1 ≤ n → 2 * n.toNat ≤ s.length →
      ∃ r rest, Roll.init uniformInterp (.int n) edge s = .ok (r, rest)) ∧
    (∀ (r : Roll) (n : Int) (s : List Nat), 1 ≤ n → 2 * n.toNat ≤ s.length →
      ∃ u r' rest, Roll.add uniformInterp r (.int n) s = (.ok u, r', rest)) := by
  refine ⟨?_, ?_, ?_, ?_, ?_, ?_⟩
  · intro interp pv edge s hb
    exact init_bad interp pv edge s hb
  · intro interp r pv s hb
    exact add_err interp r pv s .invalidPoolSize (rollMethod_bad interp pv true s hb)
  · intro interp n edge s hn
    unfold Roll.init
    cases hm : rollMethod interp (.int n) edge s with
    | error e =>
      have hne := rollMethod_ne_invalid interp n edge s hn
      rw [hm] at hne
      simpa using hne
    | ok q =>
      obtain ⟨d, rest⟩ := q
      simp
  · intro interp r n s hn
    unfold Roll.add
    cases hm : rollMethod interp (.int n) true s with
    | error e =>
      have hne := rollMethod_ne_invalid interp n true s hn
      rw [hm] at hne
      simpa using hne
    | ok q =>
      obtain ⟨d, rest⟩ := q
      simp
  · intro n edge s hn hs
    obtain ⟨d, rest, hd⟩ := rollDice_uniform_success edge n.toNat s hs
    refine ⟨⟨.int n, d, some d.length, none, none⟩, rest, ?_⟩
    unfold Roll.init
    rw [rollMethod_pos uniformInterp n edge s hn]
    simp [hd]
  · intro r n s hn hs
    obtain ⟨d, rest, hd⟩ := rollDice_uniform_success true n.toNat s hs
    refine ⟨(), ⟨r.original_dice_pool, r.dice ++ d, none, none, none⟩, rest, ?_⟩
    unfold Roll.add
    rw [rollMethod_pos uniformInterp n true s hn]
    simp [hd]

/-- Witness for claim C3: the validation theorem applied to the concrete
inputs of the test suite, zero, negative and non-int sizes failing, and a
positive size succeeding. -/
theorem pool_size_validation_witness :
    Roll.init scriptedInterp (.int 0) false [1, 2, 3] = .error .invalidPoolSize ∧
    Roll.init scriptedInterp (.int (-1)) true [] = .error .invalidPoolSize ∧
    Roll.init scriptedInterp .nonInt false [1] = .error .invalidPoolSize ∧
    Roll.add scriptedInterp ⟨.int 3, [1, 2, 3], some 3, none, none⟩ (.int 0) [5]
      = (.error .invalidPoolSize, ⟨.int 3, [1, 2, 3], some 3, none, none⟩, [5]) ∧
    Roll.init scriptedInterp (.int 3) false [1, 2, 3] ≠ .error .invalidPoolSize ∧
    (∃ r rest, Roll.init uniformInterp (.int 2) true [5, 0, 3, 1] = .ok (r, rest)) :=
  ⟨pool_size_validation.1 scriptedInterp (.int 0) false [1, 2, 3] (by decide),
   pool_size_validation.1 scriptedInterp (.int (-1)) true [] (by decide),
   pool_size_validation.1 scriptedInterp .nonInt false [1] (by decide),
   pool_size_validation.2.1 scriptedInterp ⟨.int 3, [1, 2, 3], some 3, none, none⟩
     (.int 0) [5] (by decide),
   pool_size_validation.2.2.1 scriptedInterp 3 false [1, 2, 3] (by decide),
   pool_size_validation.2.2.2.2.1 2 true [5, 0, 3, 1] (by decide) (by decide)⟩

/-- Claim C5: is_glitch holds exactly when the glitch count reaches half
the pool size under the exact fractional comparison, equivalently when
twice the glitch count reaches the size. -/
theorem glitch_half_rule :
    ∀ r : Roll, r.WF →
      ((r.glitch.1 = true ↔ 2 * countGlitches r.dice ≥ r.dice.length) ∧
       (r.glitch.1 = true ↔ (countGlitches r.dice : ℚ) ≥ (r.dice.length : ℚ) / 2)) := by
  intro r hwf
  obtain ⟨o, d, c1, c2, c3⟩ := r
  rw [WF_mk] at hwf
  obtain ⟨h1, h2, h3⟩ := hwf
  rw [glitch_mk o d c1 c2 c3 h1 h3]
  constructor
  · simp only [halfOrMore_eq, decide_eq_true_eq, ge_iff_le]
  · simp only [halfOrMore, decide_eq_true_eq]

/-- Witness for claim C5: a size-3 pool with two 1s is a glitch, a size-4
pool with a single 1 is not, and a size-4 pool with two 1s is. -/
theorem glitch_half_rule_witness :
    (⟨.int 3, [1, 1, 4], some 3, none, none⟩ : Roll).WF ∧
    (Roll.glitch ⟨.int 3, [1, 1, 4], some 3, none, none⟩).1 = true ∧
    (Roll.glitch ⟨.int 4, [1, 2, 3, 4], some 4, none, none⟩).1 ≠ true ∧
    (Roll.glitch ⟨.int 4, [1, 1, 5, 6], some 4, none, none⟩).1 = true := by
  refine ⟨by decide, ((glitch_half_rule _ (by decide)).1).mpr (by decide), ?_,
    ((glitch_half_rule _ (by decide)).1).mpr (by decide)⟩
  intro hc
  have hg := ((glitch_half_rule ⟨.int 4, [1, 2, 3, 4], some 4, none, none⟩
    (by decide)).1).mp hc
  have hcg : countGlitches [1, 2, 3, 4] = 1 := by decide
  rw [hcg] at hg
  simp at hg

/-- Claim C9: an add with an invalid size raises before any mutation: the
error is InvalidPoolSize and faces, all three caches, the original pool
size, and the script position are exactly as before the call. -/
theorem add_atomic_on_error :
    ∀ (interp : Interp) (r : Roll) (pv : PyVal) (s : List Nat),
      badSize pv = true →
        (Roll.add interp r pv s).1 = .error .invalidPoolSize ∧
        (Roll.add interp r pv s).2.1.dice = r.dice ∧
        (Roll.add interp r pv s).2.1.dicePoolCache = r.dicePoolCache ∧
        (Roll.add interp r pv s).2.1.hitsCache = r.hitsCache ∧
        (Roll.add interp r pv s).2.1.glitchesCache = r.glitchesCache ∧
        (Roll.add interp r pv s).2.1.original_dice_pool = r.original_dice_pool ∧
        (Roll.add interp r pv s).2.2 = s := by
  intro interp r pv s hb
  rw [add_err interp r pv s .invalidPoolSize (rollMethod_bad interp pv true s hb)]
  exact ⟨rfl, rfl, rfl, rfl, rfl, rfl, rfl⟩

/-- Witness for claim C9: a concrete pool with partially filled caches is
untouched by an add of a non-int size. -/
theorem add_atomic_on_error_witness :
    (Roll.add scriptedInterp ⟨.int 2, [5, 1], some 2, some 1, none⟩ .nonInt [4, 2]).1
        = .error .invalidPoolSize ∧
    (Roll.add scriptedInterp ⟨.int 2, [5, 1], some 2, some 1, none⟩ .nonInt [4, 2]).2.1.dice
        = [5, 1] ∧
    (Roll.add scriptedInterp ⟨.int 2, [5, 1], some 2, some 1, none⟩ .nonInt
        [4, 2]).2.1.dicePoolCache = some 2 ∧
    (Roll.add scriptedInterp ⟨.int 2, [5, 1], some 2, some 1, none⟩ .nonInt
        [4, 2]).2.1.hitsCache = some 1 ∧
    (Roll.add scriptedInterp ⟨.int 2, [5, 1], some 2, some 1, none⟩ .nonInt
        [4, 2]).2.1.glitchesCache = none ∧
    (Roll.add scriptedInterp ⟨.int 2, [5, 1], some 2, some 1, none⟩ .nonInt
        [4, 2]).2.1.original_dice_pool = .int 2 ∧
    (Roll.add scriptedInterp ⟨.int 2, [5, 1], some 2, some 1, none⟩ .nonInt
        [4, 2]).2.2 = [4, 2] :=
  add_atomic_on_error scriptedInterp ⟨.int 2, [5, 1], some 2, some 1, none⟩ .nonInt
    [4, 2] (by decide)

/-- Claim C4: reroll preserves the hit faces verbatim and places them
first, replaces each non-hit face one-for-one with a fresh non-exploding
face (between 1 and 6 under the real randrange bounds), keeps the total
face count unchanged, and is a no-op when every face is a hit. -/
theorem reroll_spec :
    (∀ (interp : Interp) (r : Roll) (s : List Nat) (u : Unit) (r' : Roll)
        (rest : List Nat),
      r.WF → Roll.reroll interp r s = (.ok u, r', rest) →
        r'.dice.length = r.dice.length ∧
        r'.dice.take (countHits r.dice)
          = r.dice.filter (fun x => decide (4 < x)) ∧
        (r'.dice.drop (countHits r.dice)).length
          = r.dice.length - countHits r.dice) ∧
    (∀ (r : Roll) (s : List Nat) (u : Unit) (r' : Roll) (rest : List Nat),
      r.WF → Roll.reroll uniformInterp r s = (.ok u, r', rest) →
        ∀ x ∈ r'.dice.drop (countHits r.dice), 1 ≤ x ∧ x ≤ 6) ∧
    (∀ (interp : Interp) (r : Roll) (s : List Nat),
      r.WF → countHits r.dice = r.dice.length →
        (Roll.reroll interp r s).1 = .ok () ∧
        (Roll.reroll interp r s).2.1.dice = r.dice ∧
        (Roll.reroll interp r s).2.2 = s) := by
  refine ⟨?_, ?_, ?_⟩
  · intro interp r s u r' rest hwf h
    rcases reroll_ok_cases interp r s u r' rest hwf h with
      ⟨hall, hrest, hr'⟩ | ⟨hlt, fresh, hroll, hr'⟩
    · have hle := countHits_le r.dice
      have heq : countHits r.dice = r.dice.length := by omega
      have hfil : r.dice.filter (fun x => decide (4 < x)) = r.dice :=
        (List.filter_sublist r.dice).eq_of_length heq
      subst hr'
      dsimp only
      refine ⟨rfl, ?_, ?_⟩
      · rw [heq, hfil, List.take_length]
      · rw [heq, List.drop_length]
        simp
    · have hfl := rollDice_false_length interp _ s fresh rest hroll
      have hle := countHits_le r.dice
      have hhl : (r.dice.filter (fun x => decide (4 < x))).length
          = countHits r.dice := rfl
      subst hr'
      dsimp only
      have htake : (r.dice.filter (fun x => decide (4 < x)) ++ fresh).take
          (countHits r.dice) = r.dice.filter (fun x => decide (4 < x)) := by
        rw [← hhl, List.take_left]
      have hdrop : (r.dice.filter (fun x => decide (4 < x)) ++ fresh).drop
          (countHits r.dice) = fresh := by
        rw [← hhl, List.drop_left]
      refine ⟨?_, htake, ?_⟩
      · rw [List.length_append, hhl, hfl]
        omega
      · rw [hdrop, hfl]
  · intro r s u r' rest hwf h
    rcases reroll_ok_cases uniformInterp r s u r' rest hwf h with
      ⟨hall, hrest, hr'⟩ | ⟨hlt, fresh, hroll, hr'⟩
    · intro x hx
      subst hr'
      dsimp only at hx
      have hle := countHits_le r.dice
      have heq : countHits r.dice = r.dice.length := by omega
      rw [heq, List.drop_length] at hx
      cases hx
    · intro x hx
      subst hr'
      dsimp only at hx
      have hhl : (r.dice.filter (fun y => decide (4 < y))).length
          = countHits r.dice := rfl
      rw [← hhl, List.drop_left] at hx
      exact rollDice_uniform_mem false _ s fresh rest hroll x hx
  · intro interp r s hwf hall
    obtain ⟨o, d, c1, c2, c3⟩ := r
    rw [WF_mk] at hwf
    obtain ⟨h1, h2, h3⟩ := hwf
    dsimp only at hall ⊢
    rw [reroll_mk interp o d c1 c2 c3 s h1 h2, if_neg (by omega)]
    exact ⟨rfl, rfl, rfl⟩

/-- Witness for claim C4: the reroll of the test suite's pool 6,5,3,2 with
scripted fresh faces 1,2 preserves the two hits in front, replaces the two
misses, and keeps size 4; a pool whose faces are all hits is untouched. -/
theorem reroll_spec_witness :
    ((⟨.int 4, [6, 5, 1, 2], some 4, none, none⟩ : Roll).dice.length
        = (⟨.int 4, [6, 5, 3, 2], some 4, none, none⟩ : Roll).dice.length ∧
      (⟨.int 4, [6, 5, 1, 2], some 4, none, none⟩ : Roll).dice.take
          (countHits (⟨.int 4, [6, 5, 3, 2], some 4, none, none⟩ : Roll).dice)
        = (⟨.int 4, [6, 5, 3, 2], some 4, none, none⟩ : Roll).dice.filter
            (fun x => decide (4 < x)) ∧
      ((⟨.int 4, [6, 5, 1, 2], some 4, none, none⟩ : Roll).dice.drop
          (countHits (⟨.int 4, [6, 5, 3, 2], some 4, none, none⟩ : Roll).dice)).length
        = (⟨.int 4, [6, 5, 3, 2], some 4, none, none⟩ : Roll).dice.length
            - countHits (⟨.int 4, [6, 5, 3, 2], some 4, none, none⟩ : Roll).dice) ∧
    ((Roll.reroll scriptedInterp ⟨.int 2, [5, 6], some 2, none, none⟩ [9]).1
        = .ok () ∧
      (Roll.reroll scriptedInterp ⟨.int 2, [5, 6], some 2, none, none⟩ [9]).2.1.dice
        = (⟨.int 2, [5, 6], some 2, none, none⟩ : Roll).dice ∧
      (Roll.reroll scriptedInterp ⟨.int 2, [5, 6], some 2, none, none⟩ [9]).2.2
        = [9]) :=
  ⟨reroll_spec.1 scriptedInterp ⟨.int 4, [6, 5, 3, 2], some 4, none, none⟩ [1, 2]
      () ⟨.int 4, [6, 5, 1, 2], some 4, none, none⟩ [] (by decide) (by decide),
   reroll_spec.2.2 scriptedInterp ⟨.int 2, [5, 6], some 2, none, none⟩ [9]
      (by decide) (by decide)⟩

/-- Claim C6: a constructed pool satisfies len(faces) >= original_size >= 1,
add can only grow the face list and never touches original_size, and
reroll preserves the face count and original_size, so the invariants are
preserved by every operation. -/
theorem pool_invariants :
    (∀ (interp : Interp) (pv : PyVal) (edge : Bool) (s : List Nat) (r : Roll)
        (rest : List Nat),
      Roll.init interp pv edge s = .ok (r, rest) → r.Inv = true) ∧
    (∀ (interp : Interp) (r : Roll) (pv : PyVal) (s : List Nat) (u : Unit)
        (r' : Roll) (rest : List Nat),
      r.Inv = true → Roll.add interp r pv s = (.ok u, r', rest) →
        r'.Inv = true ∧ r'.original_dice_pool = r.original_dice_pool ∧
        r.dice.length ≤ r'.dice.length) ∧
    (∀ (interp : Interp) (r : Roll) (s : List Nat) (u : Unit) (r' : Roll)
        (rest : List Nat),
      r.Inv = true → r.WF → Roll.reroll interp r s = (.ok u, r', rest) →
        r'.Inv = true ∧ r'.original_dice_pool = r.original_dice_pool ∧
        r'.dice.length = r.dice.length) := by
  refine ⟨?_, ?_, ?_⟩
  · intro interp pv edge s r rest h
    obtain ⟨hm, hr⟩ := init_ok_elim interp pv edge s r rest h
    obtain ⟨n, hpv, hn, hroll⟩ := rollMethod_ok_elim interp pv edge s r.dice rest hm
    have hlen := rollDice_length_ge interp edge n.toNat s r.dice rest hroll
    rw [hr, hpv, Inv_mk]
    exact ⟨hn, hlen⟩
  · intro interp r pv s u r' rest hInv h
    obtain ⟨new, hm, hr'⟩ := add_ok_elim interp r pv s u r' rest h
    obtain ⟨k, ho, hk, hkl⟩ := Inv_int r hInv
    subst hr'
    dsimp only
    refine ⟨?_, rfl, ?_⟩
    · rw [ho, Inv_mk]
      refine ⟨hk, ?_⟩
      rw [List.length_append]
      omega
    · rw [List.length_append]
      omega
  · intro interp r s u r' rest hInv hwf h
    obtain ⟨k, ho, hk, hkl⟩ := Inv_int r hInv
    rcases reroll_ok_cases interp r s u r' rest hwf h with
      ⟨hall, hrest, hr'⟩ | ⟨hlt, fresh, hroll, hr'⟩
    · subst hr'
      dsimp only
      refine ⟨?_, rfl, rfl⟩
      rw [ho, Inv_mk]
      exact ⟨hk, hkl⟩
    · subst hr'
      have hfl := rollDice_false_length interp _ s fresh rest hroll
      have hle := countHits_le r.dice
      have hhl : (r.dice.filter (fun x => decide (4 < x))).length
          = countHits r.dice := rfl
      have hlen : (r.dice.filter (fun x => decide (4 < x)) ++ fresh).length
          = r.dice.length := by
        rw [List.length_append, hhl, hfl]
        omega
      dsimp only
      refine ⟨?_, rfl, hlen⟩
      rw [ho, Inv_mk]
      refine ⟨hk, ?_⟩
      rw [hlen]
      exact hkl

/-- Witness for claim C6: the invariants checked on the exploding
construction of the test suite, then through an add and a reroll. -/
theorem pool_invariants_witness :
    ((⟨.int 3, [1, 6, 5, 2], some 4, none, none⟩ : Roll).Inv = true) ∧
    ((⟨.int 3, [1, 6, 5, 2, 3], none, none, none⟩ : Roll).Inv = true ∧
      (⟨.int 3, [1, 6, 5, 2, 3], none, none, none⟩ : Roll).original_dice_pool
        = (⟨.int 3, [1, 6, 5, 2], some 4, none, none⟩ : Roll).original_dice_pool ∧
      (⟨.int 3, [1, 6, 5, 2], some 4, none, none⟩ : Roll).dice.length
        ≤ (⟨.int 3, [1, 6, 5, 2, 3], none, none, none⟩ : Roll).dice.length) ∧
    ((⟨.int 3, [6, 5, 3, 4], some 4, none, none⟩ : Roll).Inv = true ∧
      (⟨.int 3, [6, 5, 3, 4], some 4, none, none⟩ : Roll).original_dice_pool
        = (⟨.int 3, [1, 6, 5, 2], some 4, none, none⟩ : Roll).original_dice_pool ∧
      (⟨.int 3, [6, 5, 3, 4], some 4, none, none⟩ : Roll).dice.length
        = (⟨.int 3, [1, 6, 5, 2], some 4, none, none⟩ : Roll).dice.length) :=
  ⟨pool_invariants.1 scriptedInterp (.int 3) true [1, 6, 5, 2, 1]
      ⟨.int 3, [1, 6, 5, 2], some 4, none, none⟩ [1] (by decide),
   pool_invariants.2.1 scriptedInterp ⟨.int 3, [1, 6, 5, 2], some 4, none, none⟩
      (.int 1) [3] () ⟨.int 3, [1, 6, 5, 2, 3], none, none, none⟩ [] (by decide)
      (by decide),
   pool_invariants.2.2 scriptedInterp ⟨.int 3, [1, 6, 5, 2], some 4, none, none⟩
      [3, 4] () ⟨.int 3, [6, 5, 3, 4], some 4, none, none⟩ [] (by decide)
      (by decide) (by decide)⟩

/-- Claim C10: every public operation leaves the caches consistent: a
construction or an add leaves only correct or empty caches, a reroll
resets the hit and glitch caches but keeps the size cache filled with the
preserved length, and every property read preserves consistency. -/
theorem memo_consistency :
    (∀ (interp : Interp) (pv : PyVal) (edge : Bool) (s : List Nat) (r : Roll)
        (rest : List Nat), Roll.init interp pv edge s = .ok (r, rest) → r.WF) ∧
    (∀ (interp : Interp) (r : Roll) (pv : PyVal) (s : List Nat) (u : Unit)
        (r' : Roll) (rest : List Nat),
      Roll.add interp r pv s = (.ok u, r', rest) → r'.WF) ∧
    (∀ (interp : Interp) (r : Roll) (s : List Nat) (u : Unit) (r' : Roll)
        (rest : List Nat),
      r.WF → Roll.reroll interp r s = (.ok u, r', rest) →
        r'.WF ∧ r'.dicePoolCache = some r'.dice.length) ∧
    (∀ r : Roll, r.WF →
      r.dice_pool.2.WF ∧ r.hits.2.WF ∧ r.glitches.2.WF ∧ r.glitch.2.WF ∧
        r.fumble.2.WF) := by
  refine ⟨?_, ?_, ?_, ?_⟩
  · intro interp pv edge s r rest h
    obtain ⟨hm, hr⟩ := init_ok_elim interp pv edge s r rest h
    rw [hr, WF_mk]
    exact ⟨by simp [cacheOK], by simp [cacheOK], by simp [cacheOK]⟩
  · intro interp r pv s u r' rest h
    obtain ⟨new, hm, hr'⟩ := add_ok_elim interp r pv s u r' rest h
    subst hr'
    rw [WF_mk]
    exact ⟨by simp [cacheOK], by simp [cacheOK], by simp [cacheOK]⟩
  · intro interp r s u r' rest hwf h
    rcases reroll_ok_cases interp r s u r' rest hwf h with
      ⟨hall, hrest, hr'⟩ | ⟨hlt, fresh, hroll, hr'⟩
    · subst hr'
      rw [WF_mk]
      exact ⟨⟨by simp [cacheOK], by simp [cacheOK], hwf.2.2⟩, rfl⟩
    · subst hr'
      have hfl := rollDice_false_length interp _ s fresh rest hroll
      have hle := countHits_le r.dice
      have hhl : (r.dice.filter (fun x => decide (4 < x))).length
          = countHits r.dice := rfl
      have hlen : (r.dice.filter (fun x => decide (4 < x)) ++ fresh).length
          = r.dice.length := by
        rw [List.length_append, hhl, hfl]
        omega
      rw [WF_mk]
      refine ⟨⟨?_, by simp [cacheOK], by simp [cacheOK]⟩, ?_⟩
      · rw [hlen]
        simp [cacheOK]
      · dsimp only
        rw [hlen]
  · intro r hwf
    obtain ⟨o, d, c1, c2, c3⟩ := r
    rw [WF_mk] at hwf
    obtain ⟨h1, h2, h3⟩ := hwf
    refine ⟨?_, ?_, ?_, ?_, ?_⟩
    · rw [dice_pool_mk o d c1 c2 c3 h1]
      exact (WF_mk _ _ _ _ _).mpr ⟨by simp [cacheOK], h2, h3⟩
    · rw [hits_mk o d c1 c2 c3 h2]
      exact (WF_mk _ _ _ _ _).mpr ⟨h1, by simp [cacheOK], h3⟩
    · rw [glitches_mk o d c1 c2 c3 h3]
      exact (WF_mk _ _ _ _ _).mpr ⟨h1, h2, by simp [cacheOK]⟩
    · rw [glitch_mk o d c1 c2 c3 h1 h3]
      exact (WF_mk _ _ _ _ _).mpr ⟨by simp [cacheOK], h2, by simp [cacheOK]⟩
    · rw [fumble_mk o d c1 c2 c3 h1 h2 h3]
      cases hb : halfOrMore (countGlitches d) d.length with
      | true =>
        simp only [hb, if_true]
        exact (WF_mk _ _ _ _ _).mpr
          ⟨by simp [cacheOK], by simp [cacheOK], by simp [cacheOK]⟩
      | false =>
        simp only [hb, Bool.false_eq_true, if_false]
        exact (WF_mk _ _ _ _ _).mpr ⟨by simp [cacheOK], h2, by simp [cacheOK]⟩

/-- Witness for claim C10: cache consistency checked on the exploding
construction of the test suite, a reroll with its kept size cache, and the
property reads of a freshly built pool. -/
theorem memo_consistency_witness :
    (⟨.int 3, [1, 6, 5, 2], some 4, none, none⟩ : Roll).WF ∧
    ((⟨.int 3, [6, 5, 3, 4], some 4, none, none⟩ : Roll).WF ∧
      (⟨.int 3, [6, 5, 3, 4], some 4, none, none⟩ : Roll).dicePoolCache
        = some (⟨.int 3, [6, 5, 3, 4], some 4, none, none⟩ : Roll).dice.length) ∧
    ((⟨.int 2, [5, 1], some 2, none, none⟩ : Roll).dice_pool.2.WF ∧
      (⟨.int 2, [5, 1], some 2, none, none⟩ : Roll).hits.2.WF ∧
      (⟨.int 2, [5, 1], some 2, none, none⟩ : Roll).glitches.2.WF ∧
      (⟨.int 2, [5, 1], some 2, none, none⟩ : Roll).glitch.2.WF ∧
      (⟨.int 2, [5, 1], some 2, none, none⟩ : Roll).fumble.2.WF) :=
  ⟨memo_consistency.1 scriptedInterp (.int 3) true [1, 6, 5, 2, 1]
      ⟨.int 3, [1, 6, 5, 2], some 4, none, none⟩ [1] (by decide),
   memo_consistency.2.2.1 scriptedInterp ⟨.int 3, [1, 6, 5, 2], some 4, none, none⟩
      [3, 4] () ⟨.int 3, [6, 5, 3, 4], some 4, none, none⟩ [] (by decide)
      (by decide),
   memo_consistency.2.2.2 ⟨.int 2, [5, 1], some 2, none, none⟩ (by decide)⟩

/-- Claim C7: for any integer threshold, success is reported exactly when
the hit count reaches it, net hits are the hits above it floored at zero,
a critical success is exactly four or more net hits, critical implies
success, fumble implies glitch, and success and glitch can hold at the
same time. -/
theorem success_test_spec :
    (∀ t : SuccessTest, t.roll.WF →
      ((t.success.1 = true ↔ (countHits t.roll.dice : Int) ≥ t.threshold) ∧
        t.net_hits.1 = max ((countHits t.roll.dice : Int) - t.threshold) 0 ∧
        (t.crit.1 = true ↔ t.net_hits.1 ≥ 4))) ∧
    (∀ t : SuccessTest, t.crit.1 = true → t.success.1 = true) ∧
    (∀ t : SuccessTest, t.fumble.1 = true → t.glitch.1 = true) ∧
    (∃ t : SuccessTest, t.success.1 = true ∧ t.glitch.1 = true) := by
  refine ⟨?_, ?_, ?_, ?_⟩
  · intro t hwf
    obtain ⟨θ, e, r⟩ := t
    obtain ⟨o, d, c1, c2, c3⟩ := r
    dsimp only at hwf
    rw [WF_mk] at hwf
    obtain ⟨h1, h2, h3⟩ := hwf
    dsimp only
    refine ⟨?_, ?_, ?_⟩
    · simp [SuccessTest.success, SuccessTest.hits, hits_mk o d c1 c2 c3 h2]
    · simp [SuccessTest.net_hits, SuccessTest.hits, hits_mk o d c1 c2 c3 h2]
    · simp [SuccessTest.crit, SuccessTest.net_hits, SuccessTest.hits,
        hits_mk o d c1 c2 c3 h2]
  · intro t h
    simp only [SuccessTest.crit, SuccessTest.net_hits, SuccessTest.success,
      SuccessTest.hits, decide_eq_true_eq] at h ⊢
    omega
  · intro t h
    simp only [SuccessTest.fumble, SuccessTest.glitch] at h ⊢
    exact fumble_imp_glitch t.roll h
  · refine ⟨⟨2, false, ⟨.int 4, [1, 1, 5, 6], some 4, none, none⟩⟩, by decide, ?_⟩
    simp only [SuccessTest.glitch,
      glitch_mk (.int 4) [1, 1, 5, 6] (some 4) none none (by decide) (by decide),
      halfOrMore_eq]
    decide

/-- Witness for claim C7: the end-to-end scenario of the test suite, seven
hits against threshold 2, is a success and a critical success, and a
fumbled pool is also a glitch. -/
theorem success_test_spec_witness :
    ((⟨2, false, ⟨.int 7, [6, 5, 5, 6, 5, 5, 6], some 7, none, none⟩⟩ :
        SuccessTest).net_hits.1
      = max ((countHits (⟨.int 7, [6, 5, 5, 6, 5, 5, 6], some 7, none,
          none⟩ : Roll).dice : Int) - 2) 0) ∧
    ((⟨2, false, ⟨.int 7, [6, 5, 5, 6, 5, 5, 6], some 7, none, none⟩⟩ :
        SuccessTest).success.1 = true) ∧
    ((⟨3, false, ⟨.int 3, [1, 1, 2], some 3, none, none⟩⟩ :
        SuccessTest).glitch.1 = true) :=
  ⟨(success_test_spec.1 ⟨2, false, ⟨.int 7, [6, 5, 5, 6, 5, 5, 6], some 7,
      none, none⟩⟩ (by decide)).2.1,
   success_test_spec.2.1 ⟨2, false, ⟨.int 7, [6, 5, 5, 6, 5, 5, 6], some 7,
      none, none⟩⟩ (by decide),
   success_test_spec.2.2.1 ⟨3, false, ⟨.int 3, [1, 1, 2], some 3, none, none⟩⟩
     (by simp only [SuccessTest.fumble,
        fumble_mk (.int 3) [1, 1, 2] (some 3) none none (by decide) (by decide)
          (by decide), halfOrMore_eq]
         decide)⟩

/-- Claim C8: with an injected scripted randomness source, construction,
add and reroll are deterministic: one run of a scenario determines the
faces and every derived observable, and the outcome depends only on the
consumed prefix of the script, so two runs of the same operations over the
same script agree everywhere. -/
theorem scripted_determinism :
    (∀ (interp : Interp) (pv : PyVal) (edge : Bool) (ops : List Op)
        (s : List Nat) (r r' : Roll) (rest rest' : List Nat),
      runScript interp pv edge ops s = .ok (r, rest) →
      runScript interp pv edge ops s = .ok (r', rest') →
        r.dice = r'.dice ∧ observe r = observe r' ∧ r = r' ∧ rest = rest') ∧
    (∀ (interp : Interp) (pv : PyVal) (edge : Bool) (ops : List Op)
        (s t : List Nat) (r : Roll) (rest : List Nat),
      runScript interp pv edge ops s = .ok (r, rest) →
      runScript interp pv edge ops (s ++ t) = .ok (r, rest ++ t)) := by
  constructor
  · intro interp pv edge ops s r r' rest rest' h1 h2
    rw [h1] at h2
    simp only [Except.ok.injEq, Prod.mk.injEq] at h2
    obtain ⟨hr, hrest⟩ := h2
    subst hr
    subst hrest
    exact ⟨rfl, rfl, rfl, rfl⟩
  · intro interp pv edge ops s t r rest h
    exact runScript_ext interp pv edge ops s r rest t h

/-- Witness for claim C8: a concrete scripted scenario, a construction
followed by an exploding add, reads only its consumed prefix, so padding
the script changes nothing. -/
theorem scripted_determinism_witness :
    runScript scriptedInterp (.int 3) false [.addDice (.int 1)]
        ([1, 2, 3, 6, 1] ++ [9, 9])
      = .ok (⟨.int 3, [1, 2, 3, 6, 1], none, none, none⟩, [] ++ [9, 9]) :=
  scripted_determinism.2 scriptedInterp (.int 3) false [.addDice (.int 1)]
    [1, 2, 3, 6, 1] [9, 9] ⟨.int 3, [1, 2, 3, 6, 1], none, none, none⟩ []
    (by decide)

end Drekdice
